import Mathlib

/-!
Verification of the frontmatter merge engine, the wiki-link span engine, the
similarity scorer and the property-order derivation of the apply-opencode
plugin.  JavaScript strings are modelled as `List Char`, JavaScript objects as
key-insertion-ordered association lists, and the regular expressions of the
source are modelled by explicit scanning functions with the same (lazy/greedy)
matching behaviour.  Scanning loops carry an explicit fuel argument; the
wrappers pass `length + 1`, which bounds the number of loop iterations since
every iteration advances at least one character.
-/

namespace ApplyOpencode

/-- Characters of a JavaScript string. -/
abbrev Str := List Char

/-- A YAML-like frontmatter value: string, number, boolean, null, or a list of
such values (src/frontmatter.ts stores `unknown`; the spec's data model closes
it to this variant type).  Numbers are modelled as integers. -/
inductive Value where
  | str (s : Str)
  | num (n : Int)
  | bool (b : Bool)
  | null
  | list (items : List Value)

/-- A JavaScript object holding frontmatter: a key-insertion-ordered
association list (`FrontmatterData` in src/frontmatter.ts). -/
abbrev FrontmatterData := List (Str × Value)

/-- `obj[key]` on a JavaScript object: the value at the (unique) occurrence of
the key, reading the first occurrence if the list has duplicates. -/
def getKey : FrontmatterData → Str → Option Value
  | [], _ => none
  | e :: rest, k => if e.1 = k then some e.2 else getKey rest k

/-- `obj[key] = v` on a JavaScript object: update in place if the key is
present, otherwise append (insertion order). -/
def setKey : FrontmatterData → Str → Value → FrontmatterData
  | [], k, v => [(k, v)]
  | e :: rest, k, v => if e.1 = k then (k, v) :: rest else e :: setKey rest k v

/-- JavaScript `String(v)`.  Arrays are joined with "," with null elements
rendered as the empty string (Array.prototype.toString), null itself renders
as "null". -/
def jsString : Value → Str
  | .str s => s
  | .num n => (toString n).data
  | .bool b => if b then "true".data else "false".data
  | .null => "null".data
  | .list items => jsStringItems items
where
  /-- `items.join(",")` with null elements rendered empty. -/
  jsStringItems : List Value → Str
  | [] => []
  | [.null] => []
  | [v] => jsString v
  | .null :: rest => ',' :: jsStringItems rest
  | v :: rest => jsString v ++ ',' :: jsStringItems rest

/-- The `existingValue === undefined || existingValue === null ||
existingValue === ""` test of mergeFrontmatter, for a present key (the
`undefined` disjunct corresponds to `getKey` returning `none`). -/
def isNullOrEmptyStr : Value → Bool
  | .null => true
  | .str [] => true
  | _ => false

/-- The body of the `for (const [key, newValue] of Object.entries(enhanced))`
loop of mergeFrontmatter (src/frontmatter.ts lines 27-50). -/
def mergeStep (merged : FrontmatterData) (entry : Str × Value) : FrontmatterData :=
  let key := entry.1
  let newValue := entry.2
  match getKey merged key with
  | none => setKey merged key newValue
  | some existingValue =>
    if isNullOrEmptyStr existingValue then
      setKey merged key newValue
    else
      match existingValue, newValue with
      | .list existingArr, .list newArr =>
        let existingSet := existingArr.map jsString
        let additions := newArr.filter (fun item => !existingSet.contains (jsString item))
        setKey merged key (.list (existingArr ++ additions))
      | .str es, .str ns =>
        if ns.length > es.length ∧ es <:+: ns then
          setKey merged key (.str ns)
        else merged
      | _, _ => merged

/-- mergeFrontmatter (src/frontmatter.ts lines 24-53): start from a copy of
`existing` and fold the loop body over the entries of `enhanced`. -/
def mergeFrontmatter (existing enhanced : FrontmatterData) : FrontmatterData :=
  enhanced.foldl mergeStep existing

/-- Index of the first occurrence of `pat` in `hay`: the least `i` such that
`pat` is a prefix of `hay.drop i`. -/
def firstOccur (pat : Str) : Str → Option Nat
  | [] => if pat.isPrefixOf ([] : Str) then some 0 else none
  | c :: t =>
    if pat.isPrefixOf (c :: t) then some 0
    else (firstOccur pat t).map (· + 1)

/-- The opening frontmatter delimiter "---\n". -/
def fmOpen : Str := '-' :: '-' :: '-' :: '\n' :: []

/-- The closing frontmatter delimiter "\n---" (without trailing newline). -/
def nlDashes : Str := '\n' :: '-' :: '-' :: '-' :: []

/-- The closing frontmatter delimiter "\n---\n" (with trailing newline). -/
def nlDashesNl : Str := '\n' :: '-' :: '-' :: '-' :: '\n' :: []

/-- The match of `/^---\n([\s\S]*?)\n---\n?([\s\S]*)$/` against `content`
(src/frontmatter.ts line 8): the lazy group ends at the first occurrence of
"\n---" after the opening delimiter, and the greedy `\n?` consumes one newline
after the closing dashes when present.  Returns `(rawYaml, body)`. -/
def jsFrontmatterMatch (content : Str) : Option (Str × Str) :=
  if fmOpen.isPrefixOf content then
    let r := content.drop 4
    match firstOccur nlDashes r with
    | none => none
    | some k =>
      let rawYaml := r.take k
      let rest := r.drop (k + 4)
      let body := match rest with
        | '\n' :: t => t
        | _ => rest
      some (rawYaml, body)
  else none

/-- The result record of parseFrontmatter. -/
structure ParsedContent where
  frontmatter : Option FrontmatterData
  body : Str
  raw : Option Str

/-- parseFrontmatter (src/frontmatter.ts lines 7-22), parameterized by the
external `parseYaml` from the host application: `Except.error` models a thrown
exception, `Except.ok none` models a falsy (null/undefined) parse result, which
the source replaces with `{}` via `frontmatter || {}`. -/
def parseFrontmatter (parseYaml : Str → Except Unit (Option FrontmatterData))
    (content : Str) : ParsedContent :=
  match jsFrontmatterMatch content with
  | none => ⟨none, content, none⟩
  | some (rawYaml, body) =>
    match parseYaml rawYaml with
    | .error _ => ⟨none, content, none⟩
    | .ok v => ⟨some (v.getD []), body, some rawYaml⟩

/-- The preservation relation of the merge contract: the old value survives
unchanged, or a string is replaced by a strictly longer superstring, or a list
keeps all its items at their original positions (a prefix of the new list). -/
def ValuePreserved (v r : Value) : Prop :=
  r = v ∨
  (∃ s s', v = .str s ∧ r = .str s' ∧ s.length < s'.length ∧ s <:+: s') ∨
  (∃ l t, v = .list l ∧ r = .list (l ++ t))

/-! ## Wiki-link span engine (src/wiki-link-generator.ts) -/

/-- The backtick character (code 96). -/
def backtick : Char := Char.ofNat 96

/-- Opening curly brace (code 123). -/
def lbrace : Char := Char.ofNat 123

/-- Closing curly brace (code 125). -/
def rbrace : Char := Char.ofNat 125

/-- Double quote (code 34). -/
def dquote : Char := Char.ofNat 34

/-- Single quote (code 39). -/
def squote : Char := Char.ofNat 39

/-- The character class `\s` of JavaScript regular expressions. -/
def isJsWhitespace (c : Char) : Bool :=
  decide ((9 ≤ c.toNat ∧ c.toNat ≤ 13) ∨ c.toNat = 32 ∨ c.toNat = 160 ∨
    c.toNat = 0x1680 ∨ (0x2000 ≤ c.toNat ∧ c.toNat ≤ 0x200A) ∨ c.toNat = 0x2028 ∨
    c.toNat = 0x2029 ∨ c.toNat = 0x202F ∨ c.toNat = 0x205F ∨ c.toNat = 0x3000 ∨
    c.toNat = 0xFEFF)

/-- The word-boundary character class of findTitleMatches (line 48): the
class `\s` together with the bracket characters, angle brackets, braces,
comma, period, colon, semicolon, bang, question mark, both quotes, hyphen and
slash. -/
def isWordBoundaryChar (c : Char) : Bool :=
  isJsWhitespace c ||
  ['[', ']', '(', ')', lbrace, rbrace, '<', '>', ',', '.', ':', ';', '!', '?',
    dquote, squote, '-', '/'].contains c

/-- `s.toLowerCase()` (per-character; ASCII range, as exercised here). -/
def jsToLower (s : Str) : Str := s.map Char.toLower

/-- `hay.indexOf(pat, fromIndex)` for a nonempty pattern. -/
def indexOfFrom (hay pat : Str) (fromIndex : Nat) : Option Nat :=
  (firstOccur pat (hay.drop fromIndex)).map (· + fromIndex)

/-- WikiLinkSpan (src/wiki-link-generator.ts lines 3-8).  `stop` is the
half-open end offset (`end` in the source, a reserved word in Lean) and
`aliasStr` the optional alias (`alias` in the source). -/
structure WikiLinkSpan where
  start : Nat
  stop : Nat
  text : Str
  aliasStr : Option Str := none
deriving DecidableEq

/-- An entry of the `matchedRanges` array of findTitleMatches. -/
structure MatchedRange where
  start : Nat
  stop : Nat
deriving DecidableEq

/-- The `while (true)` scan of findTitleMatches for a single title
(lines 31-64): find each case-insensitive occurrence from `searchStart`
onwards, reject overlaps with already matched ranges and occurrences without
word boundaries on both sides, and record accepted spans with the exact text
from `content`.  `fuel` bounds the iteration count; every iteration advances
`searchStart`, so `content.length + 1` is enough for the nonempty titles this
is called with. -/
def scanTitle (content lowerContent title lowerTitle : Str) :
    Nat → Nat → List WikiLinkSpan × List MatchedRange →
    List WikiLinkSpan × List MatchedRange
  | 0, _, st => st
  | fuel + 1, searchStart, (spans, matchedRanges) =>
    match indexOfFrom lowerContent lowerTitle searchStart with
    | none => (spans, matchedRanges)
    | some index =>
      let stop := index + title.length
      let overlaps := matchedRanges.any (fun range =>
        (decide (index ≥ range.start) && decide (index < range.stop)) ||
        (decide (stop > range.start) && decide (stop ≤ range.stop)))
      if overlaps then
        scanTitle content lowerContent title lowerTitle fuel (index + 1)
          (spans, matchedRanges)
      else
        let charBefore := if index > 0 then content.getD (index - 1) ' ' else ' '
        let charAfter := if stop < content.length then content.getD stop ' ' else ' '
        if isWordBoundaryChar charBefore && isWordBoundaryChar charAfter then
          let exactText := (content.take stop).drop index
          scanTitle content lowerContent title lowerTitle fuel (index + 1)
            (spans ++ [⟨index, stop, exactText, none⟩],
             matchedRanges ++ [⟨index, stop⟩])
        else
          scanTitle content lowerContent title lowerTitle fuel (index + 1)
            (spans, matchedRanges)

/-- Stable insertion used to model `[...titles].sort((a, b) => b.length - a.length)`:
an element is placed after every already-placed element of greater or equal
length. -/
def insertByLenDesc (x : Str) : List Str → List Str
  | [] => [x]
  | y :: ys => if x.length ≤ y.length then y :: insertByLenDesc x ys else x :: y :: ys

/-- Titles sorted by length descending (stable, as Array.prototype.sort). -/
def sortByLenDesc (titles : List Str) : List Str :=
  titles.foldl (fun acc x => insertByLenDesc x acc) []

/-- findTitleMatches (src/wiki-link-generator.ts lines 14-68). -/
def findTitleMatches (content : Str) (titles : List Str) : List WikiLinkSpan :=
  let sortedTitles := sortByLenDesc titles
  let lowerContent := jsToLower content
  (sortedTitles.foldl (fun st title =>
    if title.length < 2 then st
    else scanTitle content lowerContent title (jsToLower title)
      (content.length + 1) 0 st) (([], []) : List WikiLinkSpan × List MatchedRange)).1

/-- Match of `/\[\[[^\]|]+\|([^\]]+)\]\]/` at the head of `s`: both character
classes exclude their closing delimiter, so greedy matching is the maximal
run.  Returns the replacement "$1" (the display part) and the rest after the
match. -/
def tryAliasedAt : Str → Option (Str × Str)
  | '[' :: '[' :: rest =>
    let tgt := rest.takeWhile (fun c => c != ']' && c != '|')
    if tgt.isEmpty then none
    else match rest.drop tgt.length with
      | '|' :: r2 =>
        let disp := r2.takeWhile (fun c => c != ']')
        if disp.isEmpty then none
        else match r2.drop disp.length with
          | ']' :: ']' :: r4 => some (disp, r4)
          | _ => none
      | _ => none
  | _ => none

/-- Match of `/\[\[([^\]]+)\]\]/` at the head of `s`: returns the inner text
and the rest after the match. -/
def trySimpleAt : Str → Option (Str × Str)
  | '[' :: '[' :: rest =>
    let inner := rest.takeWhile (fun c => c != ']')
    if inner.isEmpty then none
    else match rest.drop inner.length with
      | ']' :: ']' :: r => some (inner, r)
      | _ => none
  | _ => none

/-- `s.replace(re, rep)` with a global regex: scan left to right, replacing
each leftmost match and continuing after it.  Every step consumes at least one
character, so fuel `s.length + 1` is enough. -/
def replaceAllAux (tryAt : Str → Option (Str × Str)) : Nat → Str → Str
  | 0, s => s
  | _ + 1, [] => []
  | fuel + 1, c :: cs =>
    match tryAt (c :: cs) with
    | some (rep, rest) => rep ++ replaceAllAux tryAt fuel rest
    | none => c :: replaceAllAux tryAt fuel cs

/-- The `stripWikiLinks` helper of validateWikiLinkChanges (lines 76-82):
first reduce aliased links to their display part, then simple links to their
inner text. -/
def stripWikiLinks (s : Str) : Str :=
  let afterAliased := replaceAllAux tryAliasedAt (s.length + 1) s
  replaceAllAux trySimpleAt (afterAliased.length + 1) afterAliased

/-- validateWikiLinkChanges (src/wiki-link-generator.ts lines 74-88). -/
def validateWikiLinkChanges (original modified : Str) : Bool :=
  decide (stripWikiLinks original = stripWikiLinks modified)

/-- Stable insertion for `[...spans].sort((a, b) => b.start - a.start)`. -/
def insertByStartDesc (x : WikiLinkSpan) : List WikiLinkSpan → List WikiLinkSpan
  | [] => [x]
  | y :: ys => if y.start ≥ x.start then y :: insertByStartDesc x ys else x :: y :: ys

/-- Spans sorted by start descending (stable). -/
def sortByStartDesc (spans : List WikiLinkSpan) : List WikiLinkSpan :=
  spans.foldl (fun acc x => insertByStartDesc x acc) []

/-- applyWikiLinkSpans (src/wiki-link-generator.ts lines 94-118): process
spans by start descending; re-verify the text at the range and skip mismatched
spans; wrap in `[[text]]` or `[[alias|text]]` (an empty alias is falsy in
JavaScript, so it produces a simple link). -/
def applyWikiLinkSpans (content : Str) (spans : List WikiLinkSpan) : Str :=
  (sortByStartDesc spans).foldl (fun result span =>
    let before := result.take span.start
    let text := (result.take span.stop).drop span.start
    let after := result.drop span.stop
    if text ≠ span.text then result
    else match span.aliasStr with
      | some a =>
        if a ≠ [] then before ++ '[' :: '[' :: a ++ '|' :: text ++ ']' :: ']' :: after
        else before ++ '[' :: '[' :: text ++ ']' :: ']' :: after
      | none => before ++ '[' :: '[' :: text ++ ']' :: ']' :: after) content

/-- Length of the match of `/^---\n[\s\S]*?\n---\n/` (isInExcludedZone line
125): lazy group, so the block closes at the first "\n---\n". -/
def frontmatterZoneLen (content : Str) : Option Nat :=
  if fmOpen.isPrefixOf content then
    (firstOccur nlDashesNl (content.drop 4)).map (fun k => 4 + k + 5)
  else none

/-- Match of `/\[\[[^\]]+\]\]/` at the head of `s`: returns the match length. -/
def tryWikiLinkAt : Str → Option Nat
  | '[' :: '[' :: rest =>
    let t := rest.takeWhile (fun c => c != ']')
    if t.isEmpty then none
    else match rest.drop t.length with
      | ']' :: ']' :: _ => some (t.length + 4)
      | _ => none
  | _ => none

/-- Match of the inline-code alternative `` `[^`\n]+` `` at the head of `s`. -/
def tryInlineCodeAt : Str → Option Nat
  | c :: rest =>
    if c = backtick then
      let t := rest.takeWhile (fun ch => ch != backtick && ch != '\n')
      if t.isEmpty then none
      else match rest.drop t.length with
        | d :: _ => if d = backtick then some (t.length + 2) else none
        | [] => none
    else none
  | [] => none

/-- Three backticks. -/
def tripleBacktick : Str := backtick :: backtick :: backtick :: []

/-- Match of ``/```[\s\S]*?```|`[^`\n]+`/`` at the head of `s`: the fenced
alternative is tried first (its lazy group closes at the first following
"```"); on failure the inline alternative is tried at the same position. -/
def tryCodeAt (s : Str) : Option Nat :=
  if tripleBacktick.isPrefixOf s then
    match firstOccur tripleBacktick (s.drop 3) with
    | some k => some (3 + k + 3)
    | none => tryInlineCodeAt s
  else tryInlineCodeAt s

/-- All matches `(index, length)` of a global regex, via a head-matcher
`tryAt`: scan left to right, continuing after each match (the exec/lastIndex
loop of isInExcludedZone).  Fuel `s.length + 1` is enough since every step
advances. -/
def regexMatchesAux (tryAt : Str → Option Nat) : Nat → Str → Nat → List (Nat × Nat)
  | 0, _, _ => []
  | _ + 1, [], _ => []
  | fuel + 1, c :: cs, pos =>
    match tryAt (c :: cs) with
    | some len => (pos, len) :: regexMatchesAux tryAt fuel ((c :: cs).drop len) (pos + len)
    | none => regexMatchesAux tryAt fuel cs (pos + 1)

/-- All `[[...]]` matches of `content` (the wikiLinkRegex loop). -/
def wikiLinkMatches (content : Str) : List (Nat × Nat) :=
  regexMatchesAux tryWikiLinkAt (content.length + 1) content 0

/-- All code-region matches of `content` (the codeBlockRegex loop). -/
def codeBlockMatches (content : Str) : List (Nat × Nat) :=
  regexMatchesAux tryCodeAt (content.length + 1) content 0

/-- isInExcludedZone (src/wiki-link-generator.ts lines 123-148). -/
def isInExcludedZone (content : Str) (start stop : Nat) : Bool :=
  (match frontmatterZoneLen content with
   | some len => decide (start < len)
   | none => false) ||
  (wikiLinkMatches content).any (fun m =>
    decide (start ≥ m.1) && decide (stop ≤ m.1 + m.2)) ||
  (codeBlockMatches content).any (fun m =>
    decide (start ≥ m.1) && decide (stop ≤ m.1 + m.2))

/-- Stable insertion for `[...spans].sort((a, b) => a.start - b.start)`. -/
def insertByStartAsc (x : WikiLinkSpan) : List WikiLinkSpan → List WikiLinkSpan
  | [] => [x]
  | y :: ys => if y.start ≤ x.start then y :: insertByStartAsc x ys else x :: y :: ys

/-- Spans sorted by start ascending (stable). -/
def sortByStartAsc (spans : List WikiLinkSpan) : List WikiLinkSpan :=
  spans.foldl (fun acc x => insertByStartAsc x acc) []

/-- filterFirstMentions (src/wiki-link-generator.ts lines 153-169). -/
def filterFirstMentions (spans : List WikiLinkSpan) : List WikiLinkSpan :=
  ((sortByStartAsc spans).foldl (fun (acc : List WikiLinkSpan × List Str) span =>
    let key := jsToLower span.text
    if acc.2.contains key then acc
    else (acc.1 ++ [span], acc.2 ++ [key])) ([], [])).1

/-- filterToExistingNotes (src/wiki-link-generator.ts lines 174-177). -/
def filterToExistingNotes (spans : List WikiLinkSpan) (existingTitles : List Str) :
    List WikiLinkSpan :=
  let titleSet := existingTitles.map jsToLower
  spans.filter (fun span => titleSet.contains (jsToLower span.text))

/-- WikiLinkStrategy of settings: "existing-only" or "all-entities". -/
inductive WikiLinkStrategy where
  | existingOnly
  | allEntities
deriving DecidableEq

/-- WikiLinkMode of settings: "first" (first mention only) or "all". -/
inductive WikiLinkMode where
  | first
  | all
deriving DecidableEq

/-- GenerateWikiLinksOptions (lines 179-185); `identifyEntities` models the
awaited AI callback as a pure function. -/
structure GenerateWikiLinksOptions where
  content : Str
  existingTitles : List Str
  strategy : WikiLinkStrategy
  mode : WikiLinkMode
  identifyEntities : Option (Str → List Str → List WikiLinkSpan) := none

/-- generateWikiLinks (src/wiki-link-generator.ts lines 194-227); thrown
errors are modelled with `Except.error`. -/
def generateWikiLinks (options : GenerateWikiLinksOptions) : Except String Str :=
  let spansE : Except String (List WikiLinkSpan) :=
    match options.strategy with
    | .existingOnly => .ok (findTitleMatches options.content options.existingTitles)
    | .allEntities =>
      match options.identifyEntities with
      | none => .error "identifyEntities function required for all-entities strategy"
      | some f => .ok (f options.content options.existingTitles)
  match spansE with
  | .error e => .error e
  | .ok spans0 =>
    let spans1 := spans0.filter (fun span =>
      !isInExcludedZone options.content span.start span.stop)
    let spans2 := match options.mode with
      | .first => filterFirstMentions spans1
      | .all => spans1
    let modified := applyWikiLinkSpans options.content spans2
    if validateWikiLinkChanges options.content modified then .ok modified
    else .error "Wiki link generation attempted to modify content beyond adding brackets"

/-! ## Similarity scorer (current vault-search module, src/unnamed/part_007) -/

/-- JavaScript truthiness on frontmatter values (arrays are truthy). -/
def jsTruthy : Value → Bool
  | .str s => !s.isEmpty
  | .num n => decide (n ≠ 0)
  | .bool b => b
  | .null => false
  | .list _ => true

namespace SCORE

/-- Base score for having frontmatter at all. -/
def BASE_HAS_FRONTMATTER : Int := 5

/-- Same-folder bonus. -/
def SAME_FOLDER : Int := 3

/-- Subfolder bonus. -/
def SUBFOLDER : Int := 1

/-- Per shared tag. -/
def PER_TAG_OVERLAP : Int := 4

/-- Per link connection (each direction). -/
def LINK_CONNECTION : Int := 8

/-- Base bonus for a property superset. -/
def SUPERSET_BASE : Int := 10

/-- Per extra property beyond the target's, in the superset branch. -/
def PER_EXTRA_PROP : Int := 2

/-- Per shared property, in the partial-overlap branch. -/
def PER_SHARED_PROP : Int := 2

/-- Cap of the richness contribution. -/
def RICHNESS_CAP : Int := 5

/-- Bonus when modified within 7 days. -/
def RECENT_7_DAYS : Int := 2

/-- Bonus when modified within 30 days. -/
def RECENT_30_DAYS : Int := 1

end SCORE

/-- Milliseconds per day. -/
def MS_PER_DAY : Int := 1000 * 60 * 60 * 24

/-- The target-side inputs of the scoring loop of findSimilarNotes:
`currentFolder`, `currentFile.basename`, `extractTags(currentContent)`,
`extractLinks(currentContent)` and the key list of the target's parsed
frontmatter. -/
structure CurrentNote where
  folder : Str
  basename : Str
  tags : List Str
  links : List Str
  props : List Str

/-- The candidate-side inputs of the scoring loop: the file's parent path,
path, basename, metadata-cache frontmatter (candidates without one are skipped
before scoring), cached outgoing link texts (`none` when the cache has no
`links` field) and modification time. -/
structure CandidateFile where
  parentPath : Option Str
  path : Str
  basename : Str
  cacheFrontmatter : FrontmatterData
  cacheLinks : Option (List Str)
  mtime : Int

/-- Folder-proximity contribution (part_007 lines 56-61). -/
def folderScore (cur : CurrentNote) (cand : CandidateFile) : Int :=
  if cand.parentPath = some cur.folder then SCORE.SAME_FOLDER
  else if !cur.folder.isEmpty && cur.folder.isPrefixOf cand.path then SCORE.SUBFOLDER
  else 0

/-- Tag-overlap contribution (part_007 lines 63-70): a truthy `tags` value is
normalized to an array and its overlap with the target's tags counted by
string representation. -/
def tagScore (cur : CurrentNote) (cand : CandidateFile) : Int :=
  match getKey cand.cacheFrontmatter "tags".data with
  | some v =>
    if jsTruthy v then
      let fileTags := match v with
        | .list items => items
        | x => [x]
      ((fileTags.filter (fun t => cur.tags.contains (jsString t))).length : Int) *
        SCORE.PER_TAG_OVERLAP
    else 0
  | none => 0

/-- Link-connection contribution (part_007 lines 72-86): one bonus per
direction. -/
def linkScore (cur : CurrentNote) (cand : CandidateFile) : Int :=
  (if cur.links.any (fun link => jsToLower link == jsToLower cand.basename)
   then SCORE.LINK_CONNECTION else 0) +
  (match cand.cacheLinks with
   | some ls =>
     if ls.any (fun l => jsToLower l == jsToLower cur.basename)
     then SCORE.LINK_CONNECTION else 0
   | none => 0)

/-- Property superset / partial-overlap contribution (part_007 lines 88-100). -/
def propScore (cur : CurrentNote) (cand : CandidateFile) : Int :=
  let candidateProps := cand.cacheFrontmatter.map Prod.fst
  let currentPropsInCandidate := cur.props.filter (fun p => candidateProps.contains p)
  if 0 < cur.props.length ∧ currentPropsInCandidate.length = cur.props.length then
    SCORE.SUPERSET_BASE +
      ((candidateProps.length : Int) - (cur.props.length : Int)) * SCORE.PER_EXTRA_PROP
  else if 0 < currentPropsInCandidate.length then
    (currentPropsInCandidate.length : Int) * SCORE.PER_SHARED_PROP
  else 0

/-- Frontmatter-richness contribution (part_007 line 103). -/
def richnessScore (cand : CandidateFile) : Int :=
  min ((cand.cacheFrontmatter.map Prod.fst).length : Int) SCORE.RICHNESS_CAP

/-- Recency contribution (part_007 lines 105-108); `(now - mtime) / MS_PER_DAY
< d` is stated multiplied out to avoid real division. -/
def recencyScore (now : Int) (cand : CandidateFile) : Int :=
  if now - cand.mtime < 7 * MS_PER_DAY then SCORE.RECENT_7_DAYS
  else if now - cand.mtime < 30 * MS_PER_DAY then SCORE.RECENT_30_DAYS
  else 0

/-- The total score computed for one candidate in the scoring loop of
findSimilarNotes (part_007 lines 46-111). -/
def findSimilarNotesScore (now : Int) (cur : CurrentNote) (cand : CandidateFile) : Int :=
  SCORE.BASE_HAS_FRONTMATTER + folderScore cur cand + tagScore cur cand +
    linkScore cur cand + propScore cur cand + richnessScore cand +
    recencyScore now cand

/-- A concrete scoring target with ten frontmatter property names and no
folder, tag or link signals. -/
def cexCurrent : CurrentNote :=
  ⟨[], "cur".data, [], [],
   [['a'], ['b'], ['c'], ['d'], ['e'], ['f'], ['g'], ['h'], ['i'], ['j']]⟩

/-- A candidate whose property-name set strictly contains all ten target
properties (one extra property), with no other signals. -/
def cexSuperset : CandidateFile :=
  ⟨none, "sup".data, "sup".data,
   [(['a'], .null), (['b'], .null), (['c'], .null), (['d'], .null),
    (['e'], .null), (['f'], .null), (['g'], .null), (['h'], .null),
    (['i'], .null), (['j'], .null), (['k'], .null)], none, 0⟩

/-- A candidate sharing only nine of the target's ten properties (partial
overlap), with no other signals. -/
def cexOverlap : CandidateFile :=
  ⟨none, "par".data, "par".data,
   [(['a'], .null), (['b'], .null), (['c'], .null), (['d'], .null),
    (['e'], .null), (['f'], .null), (['g'], .null), (['h'], .null),
    (['i'], .null)], none, 0⟩

/-! ## Property-order derivation (part_007 lines 211-236) -/

/-- SimilarNote: path and parsed frontmatter of a selected example. -/
structure SimilarNote where
  path : Str
  frontmatter : FrontmatterData

/-- `Object.keys(example.frontmatter)`. -/
def fmKeys (ex : SimilarNote) : List Str := ex.frontmatter.map Prod.fst

/-- One `keys.forEach((key, index) => ...)` step of computePropertyOrder:
`positionSums[key] += index; positionCounts[key] += 1`, with JavaScript-object
key-insertion order.  The two records of the source are updated in lockstep on
the same keys and are modelled as one association list `key ↦ (sum, count)`. -/
def upsertPos : List (Str × Nat × Nat) → Str → Nat → List (Str × Nat × Nat)
  | [], key, idx => [(key, idx, 1)]
  | e :: rest, key, idx =>
    if e.1 = key then (e.1, e.2.1 + idx, e.2.2 + 1) :: rest
    else e :: upsertPos rest key idx

/-- `keys.forEach((key, index) => ...)` starting at index `i`. -/
def accumulateKeys : List (Str × Nat × Nat) → List Str → Nat → List (Str × Nat × Nat)
  | st, [], _ => st
  | st, key :: rest, i => accumulateKeys (upsertPos st key i) rest (i + 1)

/-- The accumulated positionSums/positionCounts over all examples. -/
def positionState (examples : List SimilarNote) : List (Str × Nat × Nat) :=
  examples.foldl (fun st ex => accumulateKeys st (fmKeys ex) 0) []

/-- Stable insertion for `avgPositions.sort((a, b) => a.avg - b.avg)`. -/
def insertByAvgAsc (x : Str × ℚ) : List (Str × ℚ) → List (Str × ℚ)
  | [] => [x]
  | y :: ys => if y.2 ≤ x.2 then y :: insertByAvgAsc x ys else x :: y :: ys

/-- avgPositions sorted ascending by average position (stable). -/
def sortByAvgAsc (l : List (Str × ℚ)) : List (Str × ℚ) :=
  l.foldl (fun acc x => insertByAvgAsc x acc) []

/-- computePropertyOrder (part_007 lines 211-236): average position of each
property across the examples containing it (exact rational division models the
floating-point `sum / count` of the source), sorted ascending. -/
def computePropertyOrder (examples : List SimilarNote) : List Str :=
  let avgPositions := (positionState examples).map
    (fun e => (e.1, (e.2.1 : ℚ) / (e.2.2 : ℚ)))
  (sortByAvgAsc avgPositions).map Prod.fst

/-- The propertyOrder field returned by formatExamplesForPrompt (part_007
lines 238-249): empty on the early return (no examples and no titles),
otherwise `computePropertyOrder examples`.  The prompt-text assembly of the
source does not affect this field and is not modelled. -/
def formatExamplesPropertyOrder (examples : List SimilarNote) (allTitles : List Str) :
    List Str :=
  if examples.isEmpty && allTitles.isEmpty then []
  else computePropertyOrder examples

/-- Specification-side: the summed position index of property `p` over the
examples that contain it. -/
def specPositionSum (examples : List SimilarNote) (p : Str) : Nat :=
  ((examples.filter (fun ex => (fmKeys ex).contains p)).map
    (fun ex => (fmKeys ex).indexOf p)).sum

/-- Specification-side: the number of examples containing property `p`. -/
def specPositionCount (examples : List SimilarNote) (p : Str) : Nat :=
  (examples.filter (fun ex => (fmKeys ex).contains p)).length

/-- Specification-side: the average position of property `p` over the examples
containing it. -/
def specAvgPosition (examples : List SimilarNote) (p : Str) : ℚ :=
  (specPositionSum examples p : ℚ) / (specPositionCount examples p : ℚ)

/-- First-occurrence lookup in the position state. -/
def lookupPos : List (Str × Nat × Nat) → Str → Option (Nat × Nat)
  | [], _ => none
  | e :: rest, k => if e.1 = k then some e.2 else lookupPos rest k

/-- The word-boundary acceptance condition of findTitleMatches, as checked by
the source for a span: the character before `start` (a space sentinel at the
string start) and the character at `stop` (a space sentinel at the string end)
both belong to the boundary class. -/
def spanBoundaryOk (content : Str) (s : WikiLinkSpan) : Prop :=
  isWordBoundaryChar (if s.start > 0 then content.getD (s.start - 1) ' ' else ' ') = true ∧
  isWordBoundaryChar (if s.stop < content.length then content.getD s.stop ' ' else ' ') = true

/-! ## Helper lemmas -/

theorem foldl_preserves {α β : Type} (f : β → α → β) (P : β → Prop)
    (hstep : ∀ b a, P b → P (f b a)) :
    ∀ (l : List α) (b : β), P b → P (l.foldl f b)
  | [], _, hb => hb
  | a :: l, b, hb => foldl_preserves f P hstep l (f b a) (hstep b a hb)

theorem getKey_setKey_self (m : FrontmatterData) (k : Str) (v : Value) :
    getKey (setKey m k v) k = some v := by
  induction m with
  | nil => simp [setKey, getKey]
  | cons e rest ih =>
    by_cases h : e.1 = k
    · simp [setKey, h, getKey]
    · simp [setKey, h, getKey, ih]

theorem getKey_setKey_ne (m : FrontmatterData) (k' k : Str) (v : Value) (h : k' ≠ k) :
    getKey (setKey m k' v) k = getKey m k := by
  induction m with
  | nil => simp [setKey, getKey, h]
  | cons e rest ih =>
    by_cases he : e.1 = k'
    · have hek : e.1 ≠ k := by rw [he]; exact h
      simp [setKey, he, getKey, h, hek]
    · by_cases hek : e.1 = k
      · simp [setKey, he, getKey, hek, Ne.symm h]
      · simp [setKey, he, getKey, hek, ih]

theorem mergeStep_getKey_ne (m : FrontmatterData) (entry : Str × Value) (k : Str)
    (h : entry.1 ≠ k) : getKey (mergeStep m entry) k = getKey m k := by
  unfold mergeStep
  cases hg : getKey m entry.1 <;> simp only [hg]
  · exact getKey_setKey_ne _ _ _ _ h
  · split
    · exact getKey_setKey_ne _ _ _ _ h
    · split
      · exact getKey_setKey_ne _ _ _ _ h
      · split
        · exact getKey_setKey_ne _ _ _ _ h
        · rfl
      · rfl

theorem valuePreserved_not_nullempty {v r : Value} (hvp : ValuePreserved v r)
    (hnull : v ≠ .null) (hempty : v ≠ .str []) : isNullOrEmptyStr r = false := by
  rcases hvp with heq | ⟨s, s', hv, hr, hlen, _⟩ | ⟨l, t, hv, hr⟩
  · subst heq
    cases r with
    | str s => cases s with
      | nil => exact absurd rfl hempty
      | cons c cs => rfl
    | num n => rfl
    | bool b => rfl
    | null => exact absurd rfl hnull
    | list items => rfl
  · subst hr
    cases s' with
    | nil => exact absurd hlen (by simp)
    | cons c cs => rfl
  · subst hr
    rfl

theorem valuePreserved_step_str {v : Value} {es ns : Str}
    (hvp : ValuePreserved v (.str es)) (hlen : es.length < ns.length)
    (hinf : es <:+: ns) : ValuePreserved v (.str ns) := by
  rcases hvp with heq | ⟨s, s', hv, hr, hl, hi⟩ | ⟨l, t, hv, hr⟩
  · subst heq
    exact Or.inr (Or.inl ⟨es, ns, rfl, rfl, hlen, hinf⟩)
  · injection hr with hr'
    subst hr'
    exact Or.inr (Or.inl ⟨s, ns, hv, rfl, lt_trans hl hlen, hi.trans hinf⟩)
  · cases hr

theorem valuePreserved_step_list {v : Value} {ea add : List Value}
    (hvp : ValuePreserved v (.list ea)) : ValuePreserved v (.list (ea ++ add)) := by
  rcases hvp with heq | ⟨s, s', hv, hr, hl, hi⟩ | ⟨l, t, hv, hr⟩
  · subst heq
    exact Or.inr (Or.inr ⟨ea, add, rfl, rfl⟩)
  · cases hr
  · injection hr with hr'
    subst hr'
    exact Or.inr (Or.inr ⟨l, t ++ add, hv, by rw [List.append_assoc]⟩)

theorem mergeStep_preserves {v : Value} (hnull : v ≠ .null) (hempty : v ≠ .str [])
    (m : FrontmatterData) (key : Str) (newValue : Value)
    (h : ∃ r, getKey m key = some r ∧ ValuePreserved v r) :
    ∃ r, getKey (mergeStep m (key, newValue)) key = some r ∧ ValuePreserved v r := by
  obtain ⟨r, hget, hvp⟩ := h
  unfold mergeStep
  simp only [hget]
  rw [valuePreserved_not_nullempty hvp hnull hempty]
  simp only [Bool.false_eq_true, if_false]
  cases r with
  | str es =>
    cases newValue with
    | str ns =>
      show ∃ r, getKey (if ns.length > es.length ∧ es <:+: ns
          then setKey m key (.str ns) else m) key = some r ∧ ValuePreserved v r
      by_cases hcond : ns.length > es.length ∧ es <:+: ns
      · rw [if_pos hcond]
        exact ⟨.str ns, getKey_setKey_self _ _ _,
          valuePreserved_step_str hvp hcond.1 hcond.2⟩
      · rw [if_neg hcond]
        exact ⟨.str es, hget, hvp⟩
    | num n => exact ⟨.str es, hget, hvp⟩
    | bool b => exact ⟨.str es, hget, hvp⟩
    | null => exact ⟨.str es, hget, hvp⟩
    | list items => exact ⟨.str es, hget, hvp⟩
  | num n =>
    cases newValue <;> exact ⟨.num n, hget, hvp⟩
  | bool b =>
    cases newValue <;> exact ⟨.bool b, hget, hvp⟩
  | null =>
    cases newValue <;> exact ⟨.null, hget, hvp⟩
  | list ea =>
    cases newValue with
    | list na =>
      show ∃ r, getKey (setKey m key (.list (ea ++ na.filter fun item =>
          !((ea.map jsString).contains (jsString item))))) key = some r ∧
        ValuePreserved v r
      exact ⟨_, getKey_setKey_self _ _ _, valuePreserved_step_list hvp⟩
    | str s => exact ⟨.list ea, hget, hvp⟩
    | num n => exact ⟨.list ea, hget, hvp⟩
    | bool b => exact ⟨.list ea, hget, hvp⟩
    | null => exact ⟨.list ea, hget, hvp⟩

/-- C1: the merge never loses a non-null, non-empty existing value: the key is
still present after the merge and its value is unchanged, a strictly longer
superstring, or a list extending the old one (old items at their original
positions). -/
theorem mergeFrontmatter_never_loses_data (existing enhanced : FrontmatterData)
    (k : Str) (v : Value) (hget : getKey existing k = some v)
    (hnull : v ≠ .null) (hempty : v ≠ .str []) :
    ∃ r, getKey (mergeFrontmatter existing enhanced) k = some r ∧ ValuePreserved v r := by
  unfold mergeFrontmatter
  refine foldl_preserves mergeStep
    (fun m => ∃ r, getKey m k = some r ∧ ValuePreserved v r) ?_ enhanced existing
    ⟨v, hget, Or.inl rfl⟩
  intro m entry hP
  obtain ⟨key, newValue⟩ := entry
  by_cases hk : key = k
  · subst hk
    exact mergeStep_preserves hnull hempty m key newValue hP
  · obtain ⟨r, hr, hvp⟩ := hP
    exact ⟨r, (mergeStep_getKey_ne m (key, newValue) k hk).trans hr, hvp⟩

/-- Witness for C1 at `existing = (title: "Original")`,
`enhanced = (title: "New Title")`. -/
theorem mergeFrontmatter_never_loses_data_witness :
    ∃ r, getKey (mergeFrontmatter [("title".data, .str "Original".data)]
        [("title".data, .str "New Title".data)]) "title".data = some r ∧
      ValuePreserved (.str "Original".data) r :=
  mergeFrontmatter_never_loses_data _ _ _ _ rfl
    (by intro h; cases h)
    (by intro h; injection h with h'; exact absurd h' (by decide))

theorem foldl_mergeStep_getKey_ne (l : List (Str × Value)) (m : FrontmatterData)
    (k : Str) (h : ∀ e ∈ l, e.1 ≠ k) :
    getKey (l.foldl mergeStep m) k = getKey m k := by
  induction l generalizing m with
  | nil => rfl
  | cons e rest ih =>
    rw [List.foldl_cons,
      ih _ (fun e' he' => h e' (List.mem_cons_of_mem _ he')),
      mergeStep_getKey_ne m e k (h e (List.mem_cons_self _ _))]

theorem getKey_split (l : FrontmatterData) (k : Str) (w : Value)
    (h : getKey l k = some w) :
    ∃ l1 l2, l = l1 ++ (k, w) :: l2 ∧ ∀ e ∈ l1, e.1 ≠ k := by
  induction l with
  | nil => cases h
  | cons e rest ih =>
    by_cases hk : e.1 = k
    · refine ⟨[], rest, ?_, by simp⟩
      have he2 : e.2 = w := by simpa [getKey, hk] using h
      simp [← hk, ← he2]
    · have h' : getKey rest k = some w := by simpa [getKey, hk] using h
      obtain ⟨l1, l2, rfl, h1⟩ := ih h'
      refine ⟨e :: l1, l2, rfl, ?_⟩
      intro e' he'
      rcases List.mem_cons.mp he' with rfl | hmem
      · exact hk
      · exact h1 e' hmem

theorem nodup_split_right {l1 l2 : List (Str × Value)} {k : Str} {w : Value}
    (hnd : ((l1 ++ (k, w) :: l2).map Prod.fst).Nodup) : ∀ e ∈ l2, e.1 ≠ k := by
  intro e he heq
  rw [List.map_append] at hnd
  have h2 := hnd.of_append_right
  rw [List.map_cons, List.nodup_cons] at h2
  refine h2.1 ?_
  rw [← heq]
  exact List.mem_map.mpr ⟨e, he, rfl⟩

theorem mergeStep_str (m : FrontmatterData) (k es ns : Str)
    (hm : getKey m k = some (.str es)) (hes : es ≠ []) :
    mergeStep m (k, .str ns) =
      if ns.length > es.length ∧ es <:+: ns then setKey m k (.str ns) else m := by
  have hne : isNullOrEmptyStr (.str es) = false := by
    cases es with
    | nil => exact absurd rfl hes
    | cons c cs => rfl
  simp only [mergeStep, hm, hne, Bool.false_eq_true, if_false]

theorem mergeStep_list (m : FrontmatterData) (k : Str) (ea na : List Value)
    (hm : getKey m k = some (.list ea)) :
    mergeStep m (k, .list na) =
      setKey m k (.list (ea ++ na.filter fun item =>
        !((ea.map jsString).contains (jsString item)))) := by
  simp only [mergeStep, hm]
  rfl

/-- C6: at a key where both maps hold non-empty strings, the merge keeps the
enhanced string exactly when it is strictly longer and contains the existing
string as a substring, and keeps the existing string otherwise. -/
theorem mergeFrontmatter_stringExtension (existing enhanced : FrontmatterData)
    (hnd : (enhanced.map Prod.fst).Nodup) (k es ns : Str)
    (hex : getKey existing k = some (.str es)) (hes : es ≠ [])
    (hen : getKey enhanced k = some (.str ns)) (hns : ns ≠ []) :
    getKey (mergeFrontmatter existing enhanced) k =
      some (.str (if ns.length > es.length ∧ es <:+: ns then ns else es)) := by
  obtain ⟨l1, l2, heq, h1⟩ := getKey_split enhanced k _ hen
  subst heq
  have h2 : ∀ e ∈ l2, e.1 ≠ k := nodup_split_right hnd
  unfold mergeFrontmatter
  rw [List.foldl_append, List.foldl_cons, foldl_mergeStep_getKey_ne l2 _ _ h2]
  have hm1 : getKey (l1.foldl mergeStep existing) k = some (.str es) :=
    (foldl_mergeStep_getKey_ne l1 existing k h1).trans hex
  rw [mergeStep_str _ _ _ _ hm1 hes]
  by_cases hcond : ns.length > es.length ∧ es <:+: ns
  · rw [if_pos hcond, if_pos hcond, getKey_setKey_self]
  · rw [if_neg hcond, if_neg hcond, hm1]

/-- Witness for C6 at `description: "Short"` extended by
`"Short description with more detail"`. -/
theorem mergeFrontmatter_stringExtension_witness :
    getKey (mergeFrontmatter [("description".data, .str "Short".data)]
        [("description".data, .str "Short description with more detail".data)])
      "description".data =
      some (.str (if "Short description with more detail".data.length >
            "Short".data.length ∧
            "Short".data <:+: "Short description with more detail".data
          then "Short description with more detail".data else "Short".data)) :=
  mergeFrontmatter_stringExtension _ _ (by simp) _ _ _ rfl (by decide) rfl (by decide)

/-- C5 counterexample: with `existing.tags = ["a"]` and
`enhanced.tags = ["b","b"]` the merged list is `["a","b","b"]`: both enhanced
duplicates pass the membership filter (which only compares against existing
items), so a duplicate by string representation is introduced even though the
existing list had none. -/
theorem mergeFrontmatter_arrayUnion_counterexample :
    getKey (mergeFrontmatter [("tags".data, .list [.str "a".data])]
        [("tags".data, .list [.str "b".data, .str "b".data])]) "tags".data =
      some (.list [.str "a".data, .str "b".data, .str "b".data]) ∧
    ([Value.str "a".data].map jsString).Nodup ∧
    ¬ ([Value.str "a".data, .str "b".data, .str "b".data].map jsString).Nodup := by
  refine ⟨rfl, by decide, by decide⟩

/-- C5 (amended): at a key where both maps hold lists, the merge yields the
existing items in their original order followed by exactly those enhanced
items whose string representation does not occur among the existing items
(in enhanced order).  No existing item is removed and no enhanced item that
duplicates an existing one is appended; enhanced-internal duplicates are not
collapsed. -/
theorem mergeFrontmatter_arrayUnion (existing enhanced : FrontmatterData)
    (hnd : (enhanced.map Prod.fst).Nodup) (k : Str) (ea na : List Value)
    (hex : getKey existing k = some (.list ea))
    (hen : getKey enhanced k = some (.list na)) :
    getKey (mergeFrontmatter existing enhanced) k =
      some (.list (ea ++ na.filter fun item =>
        !((ea.map jsString).contains (jsString item)))) := by
  obtain ⟨l1, l2, heq, h1⟩ := getKey_split enhanced k _ hen
  subst heq
  have h2 : ∀ e ∈ l2, e.1 ≠ k := nodup_split_right hnd
  unfold mergeFrontmatter
  rw [List.foldl_append, List.foldl_cons, foldl_mergeStep_getKey_ne l2 _ _ h2]
  have hm1 : getKey (l1.foldl mergeStep existing) k = some (.list ea) :=
    (foldl_mergeStep_getKey_ne l1 existing k h1).trans hex
  rw [mergeStep_list _ _ _ _ hm1, getKey_setKey_self]

/-- Witness for C5 (amended) at the spec's example:
`["existing","shared"]` merged with `["shared","new"]` gives
`["existing","shared","new"]`. -/
theorem mergeFrontmatter_arrayUnion_witness :
    getKey (mergeFrontmatter
        [("tags".data, .list [.str "existing".data, .str "shared".data])]
        [("tags".data, .list [.str "shared".data, .str "new".data])]) "tags".data =
      some (.list [.str "existing".data, .str "shared".data, .str "new".data]) := by
  have h := mergeFrontmatter_arrayUnion
    [("tags".data, .list [.str "existing".data, .str "shared".data])]
    [("tags".data, .list [.str "shared".data, .str "new".data])]
    (by simp) "tags".data _ _ rfl rfl
  rw [h]
  rfl

/-- C7: parseFrontmatter is a total function of its input, and both when no
well-formed delimited block is found and when the found block fails to parse,
it returns frontmatter = null, raw = null and the whole unchanged input as
body. -/
theorem parseFrontmatter_fallback
    (parseYaml : Str → Except Unit (Option FrontmatterData)) (content : Str) :
    (jsFrontmatterMatch content = none →
      parseFrontmatter parseYaml content = ⟨none, content, none⟩) ∧
    (∀ rawYaml body, jsFrontmatterMatch content = some (rawYaml, body) →
      parseYaml rawYaml = .error () →
      parseFrontmatter parseYaml content = ⟨none, content, none⟩) := by
  constructor
  · intro h
    simp only [parseFrontmatter, h]
  · intro rawYaml body h he
    simp only [parseFrontmatter, h, he]

/-- Witness for C7: a content without any block, and a content whose block
text the parser rejects. -/
theorem parseFrontmatter_fallback_witness :
    parseFrontmatter (fun _ => .error ()) "no metadata here".data =
      ⟨none, "no metadata here".data, none⟩ ∧
    parseFrontmatter (fun _ => .error ()) "---\ntitle: [x\n---\nbody".data =
      ⟨none, "---\ntitle: [x\n---\nbody".data, none⟩ :=
  ⟨(parseFrontmatter_fallback _ _).1 rfl,
   (parseFrontmatter_fallback _ _).2 "title: [x".data "body".data rfl rfl⟩

/-- C10: a present block whose text parses to a falsy (null) or empty value
yields frontmatter = the empty map (not null, so distinguishable from the
fallback), raw = the literal block text, and body = the text after the closing
delimiter. -/
theorem parseFrontmatter_emptyBlock
    (parseYaml : Str → Except Unit (Option FrontmatterData))
    (content rawYaml body : Str)
    (hm : jsFrontmatterMatch content = some (rawYaml, body))
    (hp : parseYaml rawYaml = .ok none ∨ parseYaml rawYaml = .ok (some [])) :
    parseFrontmatter parseYaml content = ⟨some [], body, some rawYaml⟩ := by
  rcases hp with hp | hp <;> simp only [parseFrontmatter, hm, hp] <;> rfl

/-- Witness for C10 at a blank block parsed to null. -/
theorem parseFrontmatter_emptyBlock_witness :
    parseFrontmatter (fun _ => .ok none) "---\n\n---\nhello".data =
      ⟨some [], "hello".data, some []⟩ :=
  parseFrontmatter_emptyBlock _ _ [] _ rfl (Or.inl rfl)

/-- C2 counterexample: on content that already contains wiki-link syntax,
generateWikiLinks returns without throwing (the title occurrence lies inside
an existing link, so nothing is added), yet stripping the returned string
yields "Alice", not the original input "[[Alice]]". -/
theorem generateWikiLinks_strip_counterexample :
    generateWikiLinks ⟨"[[Alice]]".data, ["Alice".data], .existingOnly, .all, none⟩ =
      .ok "[[Alice]]".data ∧
    stripWikiLinks "[[Alice]]".data = "Alice".data ∧
    "Alice".data ≠ "[[Alice]]".data :=
  ⟨rfl, rfl, by decide⟩

/-- C2 (amended): whenever generateWikiLinks returns without throwing,
stripping all wiki-link syntax (aliased links to their display part, simple
links to their inner text) from the returned string yields exactly the input
content with its own wiki-link syntax stripped the same way; this coincides
with the original input character-for-character when the input contains no
wiki-link syntax. -/
theorem generateWikiLinks_stripRoundTrip (options : GenerateWikiLinksOptions)
    (out : Str) (h : generateWikiLinks options = .ok out) :
    stripWikiLinks out = stripWikiLinks options.content := by
  obtain ⟨content, titles, strategy, mode, ident⟩ := options
  unfold generateWikiLinks at h
  cases strategy with
  | existingOnly =>
    dsimp only at h ⊢
    split at h
    · rename_i hvalid
      injection h with h'
      subst h'
      unfold validateWikiLinkChanges at hvalid
      exact (of_decide_eq_true hvalid).symm
    · simp at h
  | allEntities =>
    cases ident with
    | none => simp at h
    | some f =>
      dsimp only at h ⊢
      split at h
      · rename_i hvalid
        injection h with h'
        subst h'
        unfold validateWikiLinkChanges at hvalid
        exact (of_decide_eq_true hvalid).symm
      · simp at h

/-- Witness for C2 (amended): "Hi Alice" with title "Alice" gives
"Hi [[Alice]]", whose stripped form is the stripped input. -/
theorem generateWikiLinks_stripRoundTrip_witness :
    stripWikiLinks "Hi [[Alice]]".data = stripWikiLinks "Hi Alice".data :=
  generateWikiLinks_stripRoundTrip
    ⟨"Hi Alice".data, ["Alice".data], .existingOnly, .all, none⟩ _ rfl

/-- C4 counterexample: in "ab `cd` ef" the inline code region is the match
(3, 4), covering offsets [3, 7); the range [1, 5) overlaps it (offsets 3 and 4
lie in both) but is not contained in it, and isInExcludedZone returns false,
although part of the range falls inside a code region. -/
theorem isInExcludedZone_counterexample :
    codeBlockMatches "ab `cd` ef".data = [(3, 4)] ∧
    (3 < 5 ∧ 1 < 3 + 4) ∧
    isInExcludedZone "ab `cd` ef".data 1 5 = false :=
  ⟨rfl, by decide, rfl⟩

/-- C4 (amended): isInExcludedZone returns true whenever the range starts
inside the leading frontmatter block, or lies entirely within an existing
wiki-link match or within a code-region match (fenced or inline); a range that
only partially overlaps a wiki-link or code region is not excluded. -/
theorem isInExcludedZone_of_containment (content : Str) (start stop : Nat)
    (h : (∃ len, frontmatterZoneLen content = some len ∧ start < len) ∨
         (∃ m ∈ wikiLinkMatches content, m.1 ≤ start ∧ stop ≤ m.1 + m.2) ∨
         (∃ m ∈ codeBlockMatches content, m.1 ≤ start ∧ stop ≤ m.1 + m.2)) :
    isInExcludedZone content start stop = true := by
  unfold isInExcludedZone
  simp only [Bool.or_eq_true, List.any_eq_true, Bool.and_eq_true, decide_eq_true_eq]
  rcases h with ⟨len, hl, hs⟩ | ⟨m, hm, h1, h2⟩ | ⟨m, hm, h1, h2⟩
  · rw [hl]
    exact Or.inl (Or.inl (by simpa using hs))
  · exact Or.inl (Or.inr ⟨m, hm, h1, h2⟩)
  · exact Or.inr ⟨m, hm, h1, h2⟩

/-- Witness for C4 (amended): the range [2, 5) is contained in the inline code
region (2, 3) of "a `b` c". -/
theorem isInExcludedZone_of_containment_witness :
    isInExcludedZone "a `b` c".data 2 5 = true :=
  isInExcludedZone_of_containment _ 2 5
    (Or.inr (Or.inr ⟨(2, 3), by decide, by decide, by decide⟩))

theorem scanTitle_boundary (content lc t lt : Str) :
    ∀ (fuel searchStart : Nat) (st : List WikiLinkSpan × List MatchedRange),
      (∀ s ∈ st.1, spanBoundaryOk content s) →
      ∀ s ∈ (scanTitle content lc t lt fuel searchStart st).1, spanBoundaryOk content s := by
  intro fuel
  induction fuel with
  | zero =>
    intro searchStart st h
    simpa [scanTitle] using h
  | succ n ih =>
    intro searchStart st h
    obtain ⟨spans, ranges⟩ := st
    simp only [scanTitle]
    cases hio : indexOfFrom lc lt searchStart with
    | none => simpa using h
    | some index =>
      dsimp only
      split
      · exact ih _ _ h
      · by_cases hb : (isWordBoundaryChar
            (if index > 0 then content.getD (index - 1) ' ' else ' ') &&
            isWordBoundaryChar
              (if index + t.length < content.length then content.getD (index + t.length) ' '
               else ' ')) = true
        · rw [if_pos hb]
          refine ih _ _ ?_
          intro s hs
          rcases List.mem_append.mp hs with hold | hnew
          · exact h s hold
          · rcases List.mem_singleton.mp hnew with rfl
            rw [Bool.and_eq_true] at hb
            exact ⟨hb.1, hb.2⟩
        · rw [if_neg hb]
          exact ih _ _ h

theorem findTitleMatches_boundary (content : Str) (titles : List Str) :
    ∀ s ∈ findTitleMatches content titles, spanBoundaryOk content s := by
  unfold findTitleMatches
  dsimp only
  exact foldl_preserves
    (fun st title => if title.length < 2 then st
      else scanTitle content (jsToLower content) title (jsToLower title)
        (content.length + 1) 0 st)
    (fun st => ∀ s ∈ st.1, spanBoundaryOk content s)
    (fun st title hst => by
      dsimp only
      split
      · exact hst
      · exact scanTitle_boundary content (jsToLower content) title (jsToLower title)
          (content.length + 1) 0 st hst)
    (sortByLenDesc titles) ([], []) (by intro s hs; cases hs)

/-- C8: every span accepted by findTitleMatches has a word-boundary character
(or the space sentinel standing for the string start/end) immediately before
and after its range, so no partial-word match is produced; in particular
"The Johnson family visited" with title "John" yields zero matches. -/
theorem findTitleMatches_wordBoundary :
    (∀ content titles s, s ∈ findTitleMatches content titles →
      spanBoundaryOk content s) ∧
    findTitleMatches "The Johnson family visited".data ["John".data] = [] :=
  ⟨fun content titles s hs => findTitleMatches_boundary content titles s hs, rfl⟩

/-- Witness for C8: the span accepted in "Hi John!" sits between a space and
an exclamation mark, both boundary characters. -/
theorem findTitleMatches_wordBoundary_witness :
    (⟨3, 7, "John".data, none⟩ : WikiLinkSpan) ∈
      findTitleMatches "Hi John!".data ["John".data] ∧
    spanBoundaryOk "Hi John!".data ⟨3, 7, "John".data, none⟩ :=
  ⟨by decide, findTitleMatches_wordBoundary.1 "Hi John!".data ["John".data]
    ⟨3, 7, "John".data, none⟩ (by decide)⟩

/-- C3 counterexample: the target has ten properties; cexSuperset is a strict
superset candidate (10 + 1·2 = 12 property points), cexOverlap shares only
nine properties (9·2 = 18 property points); all other signals (folder, tags,
links, richness, recency) are equal, yet the superset candidate scores
strictly lower: 24 < 30. -/
theorem findSimilarNotesScore_superset_counterexample :
    (folderScore cexCurrent cexSuperset = folderScore cexCurrent cexOverlap ∧
     tagScore cexCurrent cexSuperset = tagScore cexCurrent cexOverlap ∧
     linkScore cexCurrent cexSuperset = linkScore cexCurrent cexOverlap ∧
     richnessScore cexSuperset = richnessScore cexOverlap ∧
     recencyScore 0 cexSuperset = recencyScore 0 cexOverlap) ∧
    (∀ p ∈ cexCurrent.props, p ∈ cexSuperset.cacheFrontmatter.map Prod.fst) ∧
    (∃ q ∈ cexSuperset.cacheFrontmatter.map Prod.fst, q ∉ cexCurrent.props) ∧
    (∃ p ∈ cexCurrent.props, p ∈ cexOverlap.cacheFrontmatter.map Prod.fst) ∧
    (∃ p ∈ cexCurrent.props, p ∉ cexOverlap.cacheFrontmatter.map Prod.fst) ∧
    findSimilarNotesScore 0 cexCurrent cexSuperset <
      findSimilarNotesScore 0 cexCurrent cexOverlap := by
  decide

/-- C3 (amended): all other signals (folder, tags, links, richness, recency)
being equal, a candidate whose property-name set is a strict superset of the
target's scores strictly higher than a candidate with only partial overlap,
provided the partially-overlapping candidate shares at most 5 of the target's
property names (with more than 5 shared properties the partial-overlap
contribution can exceed the superset contribution). -/
theorem findSimilarNotesScore_superset_dominance
    (now : Int) (cur : CurrentNote) (candA candB : CandidateFile)
    (hfolder : folderScore cur candA = folderScore cur candB)
    (htag : tagScore cur candA = tagScore cur candB)
    (hlink : linkScore cur candA = linkScore cur candB)
    (hrich : richnessScore candA = richnessScore candB)
    (hrec : recencyScore now candA = recencyScore now candB)
    (hndCur : cur.props.Nodup)
    (hndA : (candA.cacheFrontmatter.map Prod.fst).Nodup)
    (hne : cur.props ≠ [])
    (hsup : ∀ p ∈ cur.props, p ∈ candA.cacheFrontmatter.map Prod.fst)
    (hstrict : ∃ q ∈ candA.cacheFrontmatter.map Prod.fst, q ∉ cur.props)
    (hshared : (cur.props.filter
      (fun p => (candB.cacheFrontmatter.map Prod.fst).contains p)).length ≤ 5)
    (hBmiss : ∃ p ∈ cur.props, p ∉ candB.cacheFrontmatter.map Prod.fst) :
    findSimilarNotesScore now cur candB < findSimilarNotesScore now cur candA := by
  have hfilterA : cur.props.filter
      (fun p => (candA.cacheFrontmatter.map Prod.fst).contains p) = cur.props :=
    List.filter_eq_self.mpr (fun p hp => List.elem_iff.mpr (hsup p hp))
  have hAlen : cur.props.length < (candA.cacheFrontmatter.map Prod.fst).length := by
    obtain ⟨q, hqA, hqn⟩ := hstrict
    have hsub : cur.props.toFinset ⊂ (candA.cacheFrontmatter.map Prod.fst).toFinset := by
      rw [Finset.ssubset_def]
      constructor
      · intro x hx
        rw [List.mem_toFinset] at hx ⊢
        exact hsup x hx
      · intro hcontra
        exact hqn (List.mem_toFinset.mp (hcontra (List.mem_toFinset.mpr hqA)))
    calc cur.props.length = cur.props.toFinset.card :=
          (List.toFinset_card_of_nodup hndCur).symm
      _ < (candA.cacheFrontmatter.map Prod.fst).toFinset.card :=
          Finset.card_lt_card hsub
      _ = (candA.cacheFrontmatter.map Prod.fst).length :=
          List.toFinset_card_of_nodup hndA
  have hApos : 12 ≤ propScore cur candA := by
    simp only [propScore]
    rw [if_pos ⟨List.length_pos.mpr hne, by rw [hfilterA]⟩]
    simp only [SCORE.SUPERSET_BASE, SCORE.PER_EXTRA_PROP]
    have hcast : (cur.props.length : Int) <
        ((candA.cacheFrontmatter.map Prod.fst).length : Int) := by
      exact_mod_cast hAlen
    omega
  have hBle : propScore cur candB ≤ 10 := by
    simp only [propScore]
    have hlt : (cur.props.filter
        (fun p => (candB.cacheFrontmatter.map Prod.fst).contains p)).length <
        cur.props.length := by
      obtain ⟨p, hp, hpn⟩ := hBmiss
      exact List.length_filter_lt_length_iff_exists.mpr
        ⟨p, hp, fun hc => hpn (List.elem_iff.mp hc)⟩
    rw [if_neg (fun hcond => absurd hcond.2 (Nat.ne_of_lt hlt))]
    split
    · simp only [SCORE.PER_SHARED_PROP]
      have h5 : ((cur.props.filter
          (fun p => (candB.cacheFrontmatter.map Prod.fst).contains p)).length : Int) ≤ 5 := by
        exact_mod_cast hshared
      omega
    · norm_num
  unfold findSimilarNotesScore
  rw [hfolder, htag, hlink, hrich, hrec]
  omega

/-- Witness for C3 (amended): a two-property target, a six-property strict
superset candidate, and a candidate sharing a single property, all other
signals equal. -/
theorem findSimilarNotesScore_superset_dominance_witness :
    findSimilarNotesScore 0 ⟨[], "c".data, [], [], [['a'], ['b']]⟩
      ⟨none, "q".data, "q".data,
       [(['a'], .null), (['x'], .null), (['y'], .null), (['z'], .null),
        (['w'], .null)], none, 0⟩ <
    findSimilarNotesScore 0 ⟨[], "c".data, [], [], [['a'], ['b']]⟩
      ⟨none, "p".data, "p".data,
       [(['a'], .null), (['b'], .null), (['c'], .null), (['d'], .null),
        (['e'], .null), (['f'], .null)], none, 0⟩ :=
  findSimilarNotesScore_superset_dominance 0 _ _ _ (by decide) (by decide)
    (by decide) (by decide) (by decide) (by decide) (by decide) (by decide)
    (by decide) (by decide) (by decide) (by decide)

theorem lookupPos_upsertPos_self (st : List (Str × Nat × Nat)) (key : Str) (idx : Nat) :
    lookupPos (upsertPos st key idx) key =
      some (match lookupPos st key with
            | some sc => (sc.1 + idx, sc.2 + 1)
            | none => (idx, 1)) := by
  induction st with
  | nil => simp [upsertPos, lookupPos]
  | cons e rest ih =>
    by_cases h : e.1 = key
    · simp [upsertPos, h, lookupPos]
    · simp [upsertPos, h, lookupPos, ih]

theorem str_indexOf_cons_self (p : Str) (l : List Str) : (p :: l).indexOf p = 0 := by
  simp [List.indexOf, List.findIdx_cons]

theorem str_indexOf_cons_ne (p q : Str) (l : List Str) (h : q ≠ p) :
    (q :: l).indexOf p = l.indexOf p + 1 := by
  have hb : (q == p) = false := beq_false_of_ne h
  simp [List.indexOf, List.findIdx_cons, hb]

theorem lookupPos_upsertPos_ne (st : List (Str × Nat × Nat)) (key : Str) (idx : Nat)
    (p : Str) (h : p ≠ key) :
    lookupPos (upsertPos st key idx) p = lookupPos st p := by
  induction st with
  | nil => simp [upsertPos, lookupPos, Ne.symm h]
  | cons e rest ih =>
    by_cases he : e.1 = key
    · have hep : e.1 ≠ p := by rw [he]; exact fun hh => h hh.symm
      simp [upsertPos, he, lookupPos, hep, Ne.symm h]
    · by_cases hp : e.1 = p
      · simp [upsertPos, he, lookupPos, hp, h]
      · simp [upsertPos, he, lookupPos, hp, ih]

theorem upsertPos_keys (st : List (Str × Nat × Nat)) (key : Str) (idx : Nat) :
    (upsertPos st key idx).map (fun e => e.1) =
      if key ∈ st.map (fun e => e.1) then st.map (fun e => e.1)
      else st.map (fun e => e.1) ++ [key] := by
  induction st with
  | nil => simp [upsertPos]
  | cons e rest ih =>
    by_cases h : e.1 = key
    · simp [upsertPos, h]
    · have hne : key ≠ e.1 := fun hh => h hh.symm
      simp only [upsertPos, if_neg h, List.map_cons]
      rw [ih]
      by_cases hk : key ∈ rest.map (fun e => e.1)
      · rw [if_pos hk, if_pos (by simp [List.mem_cons, hk])]
      · rw [if_neg hk, if_neg (by simp [List.mem_cons, hne, hk])]
        simp

theorem upsertPos_keys_nodup (st : List (Str × Nat × Nat)) (key : Str) (idx : Nat)
    (h : (st.map (fun e => e.1)).Nodup) :
    ((upsertPos st key idx).map (fun e => e.1)).Nodup := by
  rw [upsertPos_keys]
  by_cases hk : key ∈ st.map (fun e => e.1)
  · rw [if_pos hk]; exact h
  · rw [if_neg hk]
    simp [List.nodup_append, h, hk]

theorem lookupPos_eq_none (st : List (Str × Nat × Nat)) (p : Str) :
    lookupPos st p = none ↔ p ∉ st.map (fun e => e.1) := by
  induction st with
  | nil => simp [lookupPos]
  | cons e rest ih =>
    by_cases h : e.1 = p
    · simp [lookupPos, h]
    · simp only [lookupPos, if_neg h, List.map_cons, List.mem_cons]
      rw [ih]
      constructor
      · intro hnp hmem
        rcases hmem with heq | hmem'
        · exact h heq.symm
        · exact hnp hmem'
      · intro hnmem hmem'
        exact hnmem (Or.inr hmem')

theorem lookupPos_of_mem_nodup (st : List (Str × Nat × Nat))
    (hnd : (st.map (fun e => e.1)).Nodup) (e : Str × Nat × Nat) (he : e ∈ st) :
    lookupPos st e.1 = some e.2 := by
  induction st with
  | nil => cases he
  | cons a rest ih =>
    rw [List.map_cons, List.nodup_cons] at hnd
    rcases List.mem_cons.mp he with rfl | hmem
    · simp [lookupPos]
    · have ha : a.1 ≠ e.1 := by
        intro hh
        exact hnd.1 (hh ▸ List.mem_map.mpr ⟨e, hmem, rfl⟩)
      simp [lookupPos, ha, ih hnd.2 hmem]

theorem lookupPos_accumulateKeys (keys : List Str) (hnd : keys.Nodup) :
    ∀ (st : List (Str × Nat × Nat)) (i : Nat) (p : Str),
      lookupPos (accumulateKeys st keys i) p =
        if p ∈ keys then
          some (match lookupPos st p with
                | some sc => (sc.1 + (i + keys.indexOf p), sc.2 + 1)
                | none => (i + keys.indexOf p, 1))
        else lookupPos st p := by
  induction keys with
  | nil =>
    intro st i p
    simp [accumulateKeys]
  | cons key rest ih =>
    intro st i p
    have hnd' : rest.Nodup := (List.nodup_cons.mp hnd).2
    simp only [accumulateKeys]
    rw [ih hnd' (upsertPos st key i) (i + 1) p]
    by_cases hp : p = key
    · subst hp
      have hnotin : p ∉ rest := (List.nodup_cons.mp hnd).1
      rw [if_neg hnotin, if_pos (List.mem_cons_self p rest),
        lookupPos_upsertPos_self, str_indexOf_cons_self]
      cases lookupPos st p <;> simp
    · by_cases hr : p ∈ rest
      · rw [if_pos hr, if_pos (List.mem_cons_of_mem _ hr),
          lookupPos_upsertPos_ne st key i p hp,
          str_indexOf_cons_ne p key rest (fun hh : key = p => hp hh.symm)]
        have harr : i + 1 + rest.indexOf p = i + (rest.indexOf p + 1) := by omega
        rw [harr]
      · rw [if_neg hr, if_neg (by simp [List.mem_cons, hp, hr])]
        exact lookupPos_upsertPos_ne st key i p hp

theorem accumulateKeys_keys_mem (keys : List Str) :
    ∀ (st : List (Str × Nat × Nat)) (i : Nat) (p : Str),
      p ∈ (accumulateKeys st keys i).map (fun e => e.1) ↔
        p ∈ st.map (fun e => e.1) ∨ p ∈ keys := by
  induction keys with
  | nil =>
    intro st i p
    simp [accumulateKeys]
  | cons key rest ih =>
    intro st i p
    simp only [accumulateKeys]
    rw [ih]
    have hup : p ∈ (upsertPos st key i).map (fun e => e.1) ↔
        p ∈ st.map (fun e => e.1) ∨ p = key := by
      rw [upsertPos_keys]
      by_cases hk : key ∈ st.map (fun e => e.1)
      · rw [if_pos hk]
        constructor
        · exact Or.inl
        · rintro (h | rfl)
          · exact h
          · exact hk
      · rw [if_neg hk]
        simp [List.mem_append]
    rw [hup]
    simp only [List.mem_cons]
    tauto

theorem accumulateKeys_keys_nodup (keys : List Str) :
    ∀ (st : List (Str × Nat × Nat)) (i : Nat),
      (st.map (fun e => e.1)).Nodup →
      ((accumulateKeys st keys i).map (fun e => e.1)).Nodup := by
  induction keys with
  | nil =>
    intro st i h
    simpa [accumulateKeys] using h
  | cons key rest ih =>
    intro st i h
    simp only [accumulateKeys]
    exact ih _ _ (upsertPos_keys_nodup st key i h)

theorem specPositionSum_append (l : List SimilarNote) (ex : SimilarNote) (p : Str) :
    specPositionSum (l ++ [ex]) p =
      specPositionSum l p +
        (if (fmKeys ex).contains p then (fmKeys ex).indexOf p else 0) := by
  unfold specPositionSum
  rw [List.filter_append, List.map_append, List.sum_append]
  congr 1
  by_cases h : p ∈ fmKeys ex
  · simp [List.filter_cons, List.elem_iff.mpr h, h]
  · have hc : (fmKeys ex).contains p = false := by
      cases hcc : (fmKeys ex).contains p
      · rfl
      · exact absurd (List.elem_iff.mp hcc) h
    simp [List.filter_cons, hc, h]

theorem specPositionCount_append (l : List SimilarNote) (ex : SimilarNote) (p : Str) :
    specPositionCount (l ++ [ex]) p =
      specPositionCount l p + (if (fmKeys ex).contains p then 1 else 0) := by
  unfold specPositionCount
  rw [List.filter_append, List.length_append]
  congr 1
  by_cases h : p ∈ fmKeys ex
  · simp [List.filter_cons, List.elem_iff.mpr h, h]
  · have hc : (fmKeys ex).contains p = false := by
      cases hcc : (fmKeys ex).contains p
      · rfl
      · exact absurd (List.elem_iff.mp hcc) h
    simp [List.filter_cons, hc, h]

theorem specPosition_of_not_mem (l : List SimilarNote) (p : Str)
    (h : ∀ ex ∈ l, p ∉ fmKeys ex) :
    specPositionSum l p = 0 ∧ specPositionCount l p = 0 := by
  have hf : l.filter (fun ex => (fmKeys ex).contains p) = [] :=
    List.filter_eq_nil_iff.mpr (fun ex hex hc => h ex hex (List.elem_iff.mp hc))
  unfold specPositionSum specPositionCount
  rw [hf]
  simp

theorem positionState_spec_aux :
    ∀ (todo done : List SimilarNote) (st : List (Str × Nat × Nat)),
      (∀ ex ∈ todo, (fmKeys ex).Nodup) →
      (st.map (fun e => e.1)).Nodup →
      (∀ p, p ∈ st.map (fun e => e.1) ↔ ∃ ex ∈ done, p ∈ fmKeys ex) →
      (∀ p sc, lookupPos st p = some sc →
        sc = (specPositionSum done p, specPositionCount done p)) →
      (((todo.foldl (fun st ex => accumulateKeys st (fmKeys ex) 0) st).map
          (fun e => e.1)).Nodup ∧
       (∀ p, p ∈ (todo.foldl (fun st ex => accumulateKeys st (fmKeys ex) 0) st).map
          (fun e => e.1) ↔ ∃ ex ∈ done ++ todo, p ∈ fmKeys ex) ∧
       (∀ p sc,
          lookupPos (todo.foldl (fun st ex => accumulateKeys st (fmKeys ex) 0) st) p
            = some sc →
          sc = (specPositionSum (done ++ todo) p, specPositionCount (done ++ todo) p))) := by
  intro todo
  induction todo with
  | nil =>
    intro done st _ h1 h2 h3
    simp only [List.foldl_nil, List.append_nil]
    exact ⟨h1, h2, h3⟩
  | cons ex rest ih =>
    intro done st hnd h1 h2 h3
    rw [List.foldl_cons]
    have hexnd : (fmKeys ex).Nodup := hnd ex (List.mem_cons_self _ _)
    have hrest : ∀ e ∈ rest, (fmKeys e).Nodup :=
      fun e he => hnd e (List.mem_cons_of_mem _ he)
    have h1' : ((accumulateKeys st (fmKeys ex) 0).map (fun e => e.1)).Nodup :=
      accumulateKeys_keys_nodup (fmKeys ex) st 0 h1
    have h2' : ∀ p, p ∈ (accumulateKeys st (fmKeys ex) 0).map (fun e => e.1) ↔
        ∃ ex' ∈ done ++ [ex], p ∈ fmKeys ex' := by
      intro p
      rw [accumulateKeys_keys_mem, h2]
      simp only [List.mem_append, List.mem_singleton]
      constructor
      · rintro (⟨e', he', hp⟩ | hk)
        · exact ⟨e', Or.inl he', hp⟩
        · exact ⟨ex, Or.inr rfl, hk⟩
      · rintro ⟨e', he' | rfl, hp⟩
        · exact Or.inl ⟨e', he', hp⟩
        · exact Or.inr hp
    have h3' : ∀ p sc, lookupPos (accumulateKeys st (fmKeys ex) 0) p = some sc →
        sc = (specPositionSum (done ++ [ex]) p, specPositionCount (done ++ [ex]) p) := by
      intro p sc hsc
      rw [lookupPos_accumulateKeys (fmKeys ex) hexnd st 0 p] at hsc
      by_cases hp : p ∈ fmKeys ex
      · rw [if_pos hp] at hsc
        have hcont : (fmKeys ex).contains p = true := List.elem_iff.mpr hp
        cases hlook : lookupPos st p with
        | some sc0 =>
          rw [hlook] at hsc
          injection hsc with hsc'
          have hspec := h3 p sc0 hlook
          subst hsc'
          rw [specPositionSum_append, specPositionCount_append, if_pos hcont,
            if_pos hcont, hspec]
          simp
        | none =>
          rw [hlook] at hsc
          injection hsc with hsc'
          subst hsc'
          have hnot : ∀ ex' ∈ done, p ∉ fmKeys ex' := by
            intro ex' hex' hpmem
            exact ((lookupPos_eq_none st p).mp hlook) ((h2 p).mpr ⟨ex', hex', hpmem⟩)
          obtain ⟨hs0, hc0⟩ := specPosition_of_not_mem done p hnot
          rw [specPositionSum_append, specPositionCount_append, if_pos hcont,
            if_pos hcont, hs0, hc0]
      · rw [if_neg hp] at hsc
        have hcont : (fmKeys ex).contains p = false := by
          cases hcc : (fmKeys ex).contains p
          · rfl
          · exact absurd (List.elem_iff.mp hcc) hp
        have hspec := h3 p sc hsc
        rw [specPositionSum_append, specPositionCount_append,
          if_neg (by simp [hp]), if_neg (by simp [hp]),
          Nat.add_zero, Nat.add_zero]
        exact hspec
    have hres := ih (done ++ [ex]) (accumulateKeys st (fmKeys ex) 0) hrest h1' h2' h3'
    rwa [List.append_assoc, List.singleton_append] at hres

theorem positionState_spec (examples : List SimilarNote)
    (hnd : ∀ ex ∈ examples, (fmKeys ex).Nodup) :
    ((positionState examples).map (fun e => e.1)).Nodup ∧
    (∀ p, p ∈ (positionState examples).map (fun e => e.1) ↔
      ∃ ex ∈ examples, p ∈ fmKeys ex) ∧
    (∀ p sc, lookupPos (positionState examples) p = some sc →
      sc = (specPositionSum examples p, specPositionCount examples p)) := by
  have h := positionState_spec_aux examples [] [] hnd (by simp)
    (by intro p; simp)
    (by intro p sc hsc; simp [lookupPos] at hsc)
  simpa [positionState] using h

theorem insertByAvgAsc_perm (x : Str × ℚ) (l : List (Str × ℚ)) :
    List.Perm (insertByAvgAsc x l) (x :: l) := by
  induction l with
  | nil => exact List.Perm.refl _
  | cons y ys ih =>
    simp only [insertByAvgAsc]
    split
    · exact (ih.cons y).trans (List.Perm.swap x y ys)
    · exact List.Perm.refl _

theorem sortByAvgAsc_perm_aux :
    ∀ (l acc : List (Str × ℚ)),
      List.Perm (l.foldl (fun acc x => insertByAvgAsc x acc) acc) (acc ++ l) := by
  intro l
  induction l with
  | nil => intro acc; simp
  | cons x xs ih =>
    intro acc
    rw [List.foldl_cons]
    refine (ih (insertByAvgAsc x acc)).trans ?_
    refine (List.Perm.append_right xs (insertByAvgAsc_perm x acc)).trans ?_
    exact List.perm_middle.symm

theorem sortByAvgAsc_perm (l : List (Str × ℚ)) : List.Perm (sortByAvgAsc l) l := by
  simpa using sortByAvgAsc_perm_aux l []

theorem insertByAvgAsc_pairwise (x : Str × ℚ) (l : List (Str × ℚ))
    (h : l.Pairwise (fun a b => a.2 ≤ b.2)) :
    (insertByAvgAsc x l).Pairwise (fun a b => a.2 ≤ b.2) := by
  induction l with
  | nil => simp [insertByAvgAsc]
  | cons y ys ih =>
    rw [List.pairwise_cons] at h
    simp only [insertByAvgAsc]
    split
    · rename_i hyx
      rw [List.pairwise_cons]
      constructor
      · intro z hz
        rcases List.mem_cons.mp ((insertByAvgAsc_perm x ys).mem_iff.mp hz) with rfl | hz'
        · exact hyx
        · exact h.1 z hz'
      · exact ih h.2
    · rename_i hyx
      rw [List.pairwise_cons]
      constructor
      · intro z hz
        rcases List.mem_cons.mp hz with rfl | hz'
        · exact le_of_not_le hyx
        · exact le_trans (le_of_not_le hyx) (h.1 z hz')
      · exact List.pairwise_cons.mpr ⟨h.1, h.2⟩

theorem sortByAvgAsc_pairwise_aux :
    ∀ (l acc : List (Str × ℚ)), acc.Pairwise (fun a b => a.2 ≤ b.2) →
      (l.foldl (fun acc x => insertByAvgAsc x acc) acc).Pairwise
        (fun a b => a.2 ≤ b.2) := by
  intro l
  induction l with
  | nil => intro acc h; simpa using h
  | cons x xs ih =>
    intro acc h
    rw [List.foldl_cons]
    exact ih _ (insertByAvgAsc_pairwise x acc h)

theorem sortByAvgAsc_pairwise (l : List (Str × ℚ)) :
    (sortByAvgAsc l).Pairwise (fun a b => a.2 ≤ b.2) :=
  sortByAvgAsc_pairwise_aux l [] List.Pairwise.nil

theorem insertByAvgAsc_append (x : Str × ℚ) (l : List (Str × ℚ))
    (h : ∀ y ∈ l, y.2 ≤ x.2) : insertByAvgAsc x l = l ++ [x] := by
  induction l with
  | nil => rfl
  | cons y ys ih =>
    simp only [insertByAvgAsc]
    rw [if_pos (h y (List.mem_cons_self _ _)), ih (fun z hz => h z (List.mem_cons_of_mem _ hz))]
    rfl

/-- C9: the property order of formatExamplesForPrompt is computePropertyOrder;
computePropertyOrder lists exactly the property names occurring in the
selected examples, without duplicates, sorted ascending by the average
positional index of each property over exactly the examples containing it;
and on two examples listing properties in a consistent relative order the
earlier-appearing properties come first (title, date before the per-example
extras). -/
theorem computePropertyOrder_spec :
    (∀ (examples : List SimilarNote) (allTitles : List Str),
      formatExamplesPropertyOrder examples allTitles = computePropertyOrder examples) ∧
    (∀ examples : List SimilarNote, (∀ ex ∈ examples, (fmKeys ex).Nodup) →
      ((∀ p, p ∈ computePropertyOrder examples ↔ ∃ ex ∈ examples, p ∈ fmKeys ex) ∧
       (computePropertyOrder examples).Nodup ∧
       (computePropertyOrder examples).Pairwise
         (fun p q => specAvgPosition examples p ≤ specAvgPosition examples q))) ∧
    computePropertyOrder
      [⟨"a.md".data, [("title".data, .str "A".data), ("date".data, .str "D".data),
        ("tags".data, .list [])]⟩,
       ⟨"b.md".data, [("title".data, .str "B".data), ("date".data, .str "E".data),
        ("category".data, .str "x".data)]⟩] =
      ["title".data, "date".data, "tags".data, "category".data] := by
  refine ⟨?_, ?_, ?_⟩
  · intro examples allTitles
    unfold formatExamplesPropertyOrder
    split
    · rename_i hcond
      have hnil : examples = [] := by
        cases examples with
        | nil => rfl
        | cons a l => simp at hcond
      subst hnil
      rfl
    · rfl
  · intro examples hnd
    obtain ⟨hndSt, hmemSt, hlook⟩ := positionState_spec examples hnd
    have hdef : computePropertyOrder examples =
        (sortByAvgAsc ((positionState examples).map
          (fun e => (e.1, (e.2.1 : ℚ) / (e.2.2 : ℚ))))).map Prod.fst := rfl
    have hperm := sortByAvgAsc_perm ((positionState examples).map
      (fun e => (e.1, (e.2.1 : ℚ) / (e.2.2 : ℚ))))
    have hkeys : (((positionState examples).map
        (fun e => (e.1, (e.2.1 : ℚ) / (e.2.2 : ℚ)))).map Prod.fst) =
        (positionState examples).map (fun e => e.1) := by
      rw [List.map_map]
      rfl
    refine ⟨?_, ?_, ?_⟩
    · intro p
      rw [hdef, (hperm.map Prod.fst).mem_iff, hkeys]
      exact hmemSt p
    · rw [hdef]
      exact (hperm.map Prod.fst).symm.nodup (by rw [hkeys]; exact hndSt)
    · rw [hdef]
      have hentry : ∀ e ∈ sortByAvgAsc ((positionState examples).map
          (fun e => (e.1, (e.2.1 : ℚ) / (e.2.2 : ℚ)))),
          e.2 = specAvgPosition examples e.1 := by
        intro e he
        obtain ⟨e0, he0, rfl⟩ := List.mem_map.mp (hperm.mem_iff.mp he)
        have hl := lookupPos_of_mem_nodup (positionState examples) hndSt e0 he0
        have hsc := hlook e0.1 e0.2 hl
        show (e0.2.1 : ℚ) / (e0.2.2 : ℚ) = specAvgPosition examples e0.1
        rw [hsc]
        rfl
      refine List.pairwise_map.mpr ?_
      refine List.Pairwise.imp_of_mem ?_ (sortByAvgAsc_pairwise _)
      intro a b ha hb hab
      rw [← hentry a ha, ← hentry b hb]
      exact hab
  · have hps : positionState
        [⟨"a.md".data, [("title".data, .str "A".data), ("date".data, .str "D".data),
          ("tags".data, .list [])]⟩,
         ⟨"b.md".data, [("title".data, .str "B".data), ("date".data, .str "E".data),
          ("category".data, .str "x".data)]⟩] =
        [("title".data, 0, 2), ("date".data, 2, 2), ("tags".data, 2, 1),
         ("category".data, 2, 1)] := rfl
    have hdef2 : computePropertyOrder
        [⟨"a.md".data, [("title".data, .str "A".data), ("date".data, .str "D".data),
          ("tags".data, .list [])]⟩,
         ⟨"b.md".data, [("title".data, .str "B".data), ("date".data, .str "E".data),
          ("category".data, .str "x".data)]⟩] =
        (sortByAvgAsc ((positionState
          [⟨"a.md".data, [("title".data, .str "A".data), ("date".data, .str "D".data),
            ("tags".data, .list [])]⟩,
           ⟨"b.md".data, [("title".data, .str "B".data), ("date".data, .str "E".data),
            ("category".data, .str "x".data)]⟩]).map
          (fun e => (e.1, (e.2.1 : ℚ) / (e.2.2 : ℚ))))).map Prod.fst := rfl
    rw [hdef2, hps]
    have hmap : List.map (fun (e : Str × Nat × Nat) => (e.1, (e.2.1 : ℚ) / (e.2.2 : ℚ)))
        [("title".data, 0, 2), ("date".data, 2, 2), ("tags".data, 2, 1),
         ("category".data, 2, 1)] =
        [("title".data, ((0 : Nat) : ℚ) / ((2 : Nat) : ℚ)),
         ("date".data, ((2 : Nat) : ℚ) / ((2 : Nat) : ℚ)),
         ("tags".data, ((2 : Nat) : ℚ) / ((1 : Nat) : ℚ)),
         ("category".data, ((2 : Nat) : ℚ) / ((1 : Nat) : ℚ))] := rfl
    rw [hmap]
    unfold sortByAvgAsc
    rw [List.foldl_cons, List.foldl_cons, List.foldl_cons, List.foldl_cons,
      List.foldl_nil]
    rw [show insertByAvgAsc ("title".data, ((0 : Nat) : ℚ) / ((2 : Nat) : ℚ)) [] =
      [("title".data, ((0 : Nat) : ℚ) / ((2 : Nat) : ℚ))] from rfl]
    rw [insertByAvgAsc_append ("date".data, ((2 : Nat) : ℚ) / ((2 : Nat) : ℚ)) _
      (by
        intro y hy
        simp only [List.mem_singleton] at hy
        subst hy
        norm_num)]
    rw [insertByAvgAsc_append ("tags".data, ((2 : Nat) : ℚ) / ((1 : Nat) : ℚ)) _
      (by
        intro y hy
        simp only [List.mem_append, List.mem_singleton] at hy
        rcases hy with rfl | rfl <;> norm_num)]
    rw [insertByAvgAsc_append ("category".data, ((2 : Nat) : ℚ) / ((1 : Nat) : ℚ)) _
      (by
        intro y hy
        simp only [List.mem_append, List.mem_singleton] at hy
        rcases hy with (rfl | rfl) | rfl <;> norm_num)]
    rfl

/-- Witness for C9 at a single two-property example. -/
theorem computePropertyOrder_spec_witness :
    (∀ p, p ∈ computePropertyOrder
        [⟨"n.md".data, [("x".data, Value.null), ("y".data, Value.null)]⟩] ↔
      ∃ ex ∈ [(⟨"n.md".data, [("x".data, Value.null), ("y".data, Value.null)]⟩ :
          SimilarNote)], p ∈ fmKeys ex) ∧
    (computePropertyOrder
      [⟨"n.md".data, [("x".data, Value.null), ("y".data, Value.null)]⟩]).Nodup ∧
    (computePropertyOrder
      [⟨"n.md".data, [("x".data, Value.null), ("y".data, Value.null)]⟩]).Pairwise
      (fun p q =>
        specAvgPosition [⟨"n.md".data, [("x".data, Value.null), ("y".data, Value.null)]⟩] p ≤
        specAvgPosition [⟨"n.md".data, [("x".data, Value.null), ("y".data, Value.null)]⟩] q) :=
  computePropertyOrder_spec.2.1 _ (by decide)

end ApplyOpencode
